import Mathlib

/-!
Verification of the binary32 ↔ binary16 conversion core in
`src/lib/include/half_float.h` (namespace `HalfFloat`, two header variants).

All machine integers are modelled as `Nat` with explicit `% 2^w` where the C
code can wrap or truncate.  C bit operations are rendered arithmetically:
`x >> k` is `x / 2^k`, `x & (2^k - 1)` is `x % 2^k`, `x << k` is `x * 2^k`,
and `x | y` for a single bit `y` at position `p` is the conditional add
`if x / 2^p % 2 = 0 then x + y else x`.  Bit-field reads of the `FP32` union
are `u / 2^23 % 256` (Exponent), `u % 2^23` (Mantissa), `u / 2^31 % 2` (Sign);
bit-field writes truncate their right-hand side exactly as C does.

The only floating-point arithmetic the converters perform is on nonnegative
finite binary32 operands whose result does not depend on the sign rule:
IEEE-754 requires the exact real result rounded to nearest, ties to even
(the stated assumption of the fast converter family).  This is modelled by
`roundFP32pos`, which rounds the exact rational `n / 2^k` to a binary32 bit
pattern, together with `val149`, the exact value of a nonnegative finite
pattern scaled by `2^149` (so that every finite binary32 value is a `Nat`).
-/

set_option maxRecDepth 40000

/-- Round `n / d` to the nearest integer, ties to even. -/
def rne_div (n d : Nat) : Nat :=
  if 2 * (n % d) > d ∨ (2 * (n % d) = d ∧ n / d % 2 = 1) then n / d + 1 else n / d

/-- Fuel-based floor of log₂: for `0 < n < 2^fuel`, `2^(nlog2 fuel n) ≤ n < 2^(nlog2 fuel n + 1)`. -/
def nlog2 : Nat → Nat → Nat
  | 0, _ => 0
  | fuel + 1, n => if 2 ≤ n then nlog2 fuel (n / 2) + 1 else 0

/-- Exact value of a nonnegative finite binary32 bit pattern, scaled by `2^149`
(the smallest positive binary32 subnormal is `2^-149`).  For a pattern with
exponent field `e` and mantissa field `m`: subnormals (`e = 0`) denote
`m * 2^-149` and normals denote `2^(e-127) * (1 + m / 2^23) = (2^23 + m) * 2^(e-1) * 2^-149`. -/
def val149 (x : Nat) : Nat :=
  if x / 2 ^ 23 = 0 then x % 2 ^ 23 else (2 ^ 23 + x % 2 ^ 23) * 2 ^ (x / 2 ^ 23 - 1)

/-- Round the nonnegative real `n / 2^k` to a binary32 bit pattern,
nearest-even, subnormals supported, overflow to the infinity pattern
`0x7F800000`.  If the value is below the normal range the result is the
number of `2^-149` units, rounded to nearest-even; otherwise the significand
is rounded to 24 bits and packed with the biased exponent. -/
def roundFP32pos (n k : Nat) : Nat :=
  if n = 0 then 0
  else
    let L := nlog2 512 n
    if L + 126 < k then rne_div (n * 2 ^ 149) (2 ^ k)
    else
      let s := rne_div (n * 2 ^ 23) (2 ^ L)
      if s = 2 ^ 24 then
        if 255 ≤ L + 128 - k then 255 * 2 ^ 23 else (L + 128 - k) * 2 ^ 23
      else
        if 255 ≤ L + 127 - k then 255 * 2 ^ 23
        else (L + 127 - k) * 2 ^ 23 + (s - 2 ^ 23)

/-- IEEE-754 binary32 addition of two nonnegative finite patterns under
round-to-nearest-even: the exact sum, rounded. -/
def fp32add_pos (a b : Nat) : Nat := roundFP32pos (val149 a + val149 b) 149

/-- IEEE-754 binary32 subtraction of two nonnegative finite patterns with
`val a ≥ val b`, under round-to-nearest-even: the exact difference, rounded. -/
def fp32sub_pos (a b : Nat) : Nat := roundFP32pos (val149 a - val149 b) 149

/-- IEEE-754 binary32 multiplication of a nonnegative finite pattern by the
"magic" constant `{15 << 23}` (the value `2^(15-127) = 2^-112`), under
round-to-nearest-even: the exact product `val a * 2^-112 = val149 a / 2^261`, rounded. -/
def fp32mul_pow2_neg112 (a : Nat) : Nat := roundFP32pos (val149 a) 261

/-- `float_to_half_full` (header 1, lines 91-130): the ISPC reference version,
rounds ties up (away from zero). -/
def float_to_half_full (u : Nat) : Nat :=
  let fExp : Nat := u / 2 ^ 23 % 256
  let fMant := u % 2 ^ 23
  let fSign := u / 2 ^ 31 % 2
  let o :=
    -- if (f.Exponent == 0)  o.Exponent = 0;
    if fExp = 0 then 0
    -- else if (f.Exponent == 255) { o.Exponent = 31; o.Mantissa = f.Mantissa ? 0x200 : 0; }
    else if fExp = 255 then 31 * 2 ^ 10 + (if fMant ≠ 0 then 0x200 else 0)
    else
      -- int newexp = f.Exponent - 127 + 15;
      let newexp : Int := (fExp : Int) - 127 + 15
      -- if (newexp >= 31)  o.Exponent = 31;
      if 31 ≤ newexp then 31 * 2 ^ 10
      else if newexp ≤ 0 then
        -- if ((14 - newexp) <= 24)
        if 14 - newexp ≤ 24 then
          -- unsigned int mant = f.Mantissa | 0x800000;  (bit 23 of f.Mantissa is clear)
          let mant := fMant + 0x800000
          -- o.Mantissa = mant >> (14 - newexp);  (bit-field write truncates to 10 bits)
          let o1 := mant / 2 ^ (14 - newexp).toNat % 2 ^ 10
          -- if ((mant >> (13 - newexp)) & 1)  o.u++;
          if mant / 2 ^ (13 - newexp).toNat % 2 = 1 then (o1 + 1) % 2 ^ 16 else o1
        else 0
      else
        -- o.Exponent = newexp;  o.Mantissa = f.Mantissa >> 13;
        let o1 := newexp.toNat % 32 * 2 ^ 10 + fMant / 2 ^ 13 % 2 ^ 10
        -- if (f.Mantissa & 0x1000)  o.u++;
        if fMant / 2 ^ 12 % 2 = 1 then (o1 + 1) % 2 ^ 16 else o1
  -- o.Sign = f.Sign;  (bit-field write replaces bit 15)
  o % 2 ^ 15 + fSign * 2 ^ 15

/-- `float_to_half_full_rtne` (header 1, lines 133-183): same as
`float_to_half_full` but with full round-to-nearest-even. -/
def float_to_half_full_rtne (u : Nat) : Nat :=
  let fExp : Nat := u / 2 ^ 23 % 256
  let fMant := u % 2 ^ 23
  let fSign := u / 2 ^ 31 % 2
  let o :=
    if fExp = 0 then 0
    else if fExp = 255 then 31 * 2 ^ 10 + (if fMant ≠ 0 then 0x200 else 0)
    else
      let newexp : Int := (fExp : Int) - 127 + 15
      if 31 ≤ newexp then 31 * 2 ^ 10
      else if newexp ≤ 0 then
        if 14 - newexp ≤ 24 then
          -- unsigned int mant = f.Mantissa | 0x800000;  unsigned int shift = 14 - newexp;
          let mant := fMant + 0x800000
          let shift := (14 - newexp).toNat
          -- o.Mantissa = mant >> shift;
          let o1 := mant / 2 ^ shift % 2 ^ 10
          -- unsigned int lowmant = mant & ((1 << shift) - 1);  unsigned int halfway = 1 << (shift - 1);
          let lowmant := mant % 2 ^ shift
          let halfway := 2 ^ (shift - 1)
          -- if (lowmant >= halfway) { if (lowmant > halfway || (o.Mantissa & 1)) o.u++; }
          if halfway ≤ lowmant ∧ (halfway < lowmant ∨ o1 % 2 = 1) then (o1 + 1) % 2 ^ 16 else o1
        else 0
      else
        let o1 := newexp.toNat % 32 * 2 ^ 10 + fMant / 2 ^ 13 % 2 ^ 10
        -- if (f.Mantissa & 0x1000) { if (((f.Mantissa & 0x1fff) > 0x1000) || (o.Mantissa & 1)) o.u++; }
        if fMant / 2 ^ 12 % 2 = 1 ∧ (0x1000 < fMant % 2 ^ 13 ∨ fMant / 2 ^ 13 % 2 = 1) then
          (o1 + 1) % 2 ^ 16
        else o1
  o % 2 ^ 15 + fSign * 2 ^ 15

/-- `float_to_half_fast` (header 1, lines 185-222): `float_to_half_full` with
the explicit zero/denormal branch removed. -/
def float_to_half_fast (u : Nat) : Nat :=
  let fExp : Nat := u / 2 ^ 23 % 256
  let fMant := u % 2 ^ 23
  let fSign := u / 2 ^ 31 % 2
  let o :=
    if fExp = 255 then 31 * 2 ^ 10 + (if fMant ≠ 0 then 0x200 else 0)
    else
      let newexp : Int := (fExp : Int) - 127 + 15
      if 31 ≤ newexp then 31 * 2 ^ 10
      else if newexp ≤ 0 then
        if 14 - newexp ≤ 24 then
          let mant := fMant + 0x800000
          let o1 := mant / 2 ^ (14 - newexp).toNat % 2 ^ 10
          if mant / 2 ^ (13 - newexp).toNat % 2 = 1 then (o1 + 1) % 2 ^ 16 else o1
        else 0
      else
        let o1 := newexp.toNat % 32 * 2 ^ 10 + fMant / 2 ^ 13 % 2 ^ 10
        if fMant / 2 ^ 12 % 2 = 1 then (o1 + 1) % 2 ^ 16 else o1
  o % 2 ^ 15 + fSign * 2 ^ 15

/-- `float_to_half_fast2` (header 1, lines 224-271): magic-multiply variant.
`magic = {15 << 23}` has value `2^-112`; `infty = {31 << 23}`. -/
def float_to_half_fast2 (u : Nat) : Nat :=
  -- unsigned int sign = f.Sign;  f.Sign = 0;
  let sign := u / 2 ^ 31 % 2
  let f0 := u % 2 ^ 31
  let o :=
    -- if (f.Exponent == 255) { o.Exponent = 31; o.Mantissa = f.Mantissa ? 0x200 : 0; }
    if f0 / 2 ^ 23 = 255 then 31 * 2 ^ 10 + (if f0 % 2 ^ 23 ≠ 0 then 0x200 else 0)
    else
      -- f.u &= ~0xfff;
      let f1 := f0 - f0 % 2 ^ 12
      -- f.f *= magic.f;
      let f2 := fp32mul_pow2_neg112 f1
      -- f.u += 0x1000;
      let f3 := (f2 + 0x1000) % 2 ^ 32
      -- if (f.u > infty.u) f.u = infty.u;
      let f4 := if 31 * 2 ^ 23 < f3 then 31 * 2 ^ 23 else f3
      -- o.u = f.u >> 13;  (o.u is uint16_t)
      f4 / 2 ^ 13 % 2 ^ 16
  -- o.Sign = sign;  (bit-field write replaces bit 15)
  o % 2 ^ 15 + sign * 2 ^ 15

/-- `float_to_half_fast3` (header 1, lines 273-304): bit-field free variant.
`f32infty = {255 << 23}`, `f16infty = {31 << 23}`, `magic = {15 << 23}` (value `2^-112`),
`round_mask = ~0xfff`. -/
def float_to_half_fast3 (u : Nat) : Nat :=
  -- unsigned int sign = f.u & sign_mask;  f.u ^= sign;
  let sign := u / 2 ^ 31 * 2 ^ 31
  let x := u % 2 ^ 31
  let o :=
    -- if (f.u >= f32infty.u)  o.u = (f.u > f32infty.u) ? 0x7e00 : 0x7c00;
    if 255 * 2 ^ 23 ≤ x then (if 255 * 2 ^ 23 < x then 0x7e00 else 0x7c00)
    else
      -- f.u &= round_mask;
      let f1 := x - x % 2 ^ 12
      -- f.f *= magic.f;
      let f2 := fp32mul_pow2_neg112 f1
      -- f.u -= round_mask;  (mod 2^32, round_mask = 0xfffff000, so this adds 0x1000)
      let f3 := (f2 + 0x1000) % 2 ^ 32
      -- if (f.u > f16infty.u) f.u = f16infty.u;
      let f4 := if 31 * 2 ^ 23 < f3 then 31 * 2 ^ 23 else f3
      -- o.u = f.u >> 13;  (uint16_t)
      f4 / 2 ^ 13 % 2 ^ 16
  -- o.u |= sign >> 16;  (OR of the single bit 15)
  if o / 2 ^ 15 % 2 = 0 then o + sign / 2 ^ 16 else o

/-- `float_to_half_fast3_rtne` (header 1, lines 307-352): `float_to_half_fast3`
rounding ties to nearest even.  `f32infty = {255 << 23}`, `f16max = {(127+16) << 23}`,
`denorm_magic = {((127-15)+(23-10)+1) << 23} = {126 << 23}` (value `2^-1 = 0.5`). -/
def float_to_half_fast3_rtne (u : Nat) : Nat :=
  -- unsigned int sign = f.u & sign_mask;  f.u ^= sign;
  let sign := u / 2 ^ 31 * 2 ^ 31
  let x := u % 2 ^ 31
  let o :=
    -- if (f.u >= f16max.u)  o.u = (f.u > f32infty.u) ? 0x7e00 : 0x7c00;
    if 143 * 2 ^ 23 ≤ x then (if 255 * 2 ^ 23 < x then 0x7e00 else 0x7c00)
    else
      -- if (f.u < (113 << 23))  -- resulting FP16 is subnormal or zero
      if x < 113 * 2 ^ 23 then
        -- f.f += denorm_magic.f;
        let f1 := fp32add_pos x (126 * 2 ^ 23)
        -- o.u = f.u - denorm_magic.u;  (uint32 wraparound, then uint16_t truncation)
        (f1 + (2 ^ 32 - 126 * 2 ^ 23)) % 2 ^ 32 % 2 ^ 16
      else
        -- unsigned int mant_odd = (f.u >> 13) & 1;
        let mant_odd := x / 2 ^ 13 % 2
        -- f.u += ((15 - 127) << 23) + 0xfff;  (adds -112*2^23 + 0xfff mod 2^32)
        let f1 := (x + (2 ^ 32 - 112 * 2 ^ 23) + 0xfff) % 2 ^ 32
        -- f.u += mant_odd;
        let f2 := (f1 + mant_odd) % 2 ^ 32
        -- o.u = f.u >> 13;  (uint16_t)
        f2 / 2 ^ 13 % 2 ^ 16
  -- o.u |= sign >> 16;
  if o / 2 ^ 15 % 2 = 0 then o + sign / 2 ^ 16 else o

/-- `approx_float_to_half` (header 1, lines 356-379).  `f32infty = {255 << 23}`,
`f16max = {(127+16) << 23}` (value `65536.0`), `magic = {15 << 23}` (value `2^-112`),
`expinf = {(255 ^ 31) << 23}`.

The comparison `f.f < f32infty.u` converts the integer `f32infty.u = 2139095040`
to `float` (exact) and compares values: it is false exactly when `f` is NaN or
`val f ≥ 2139095040`, i.e. `val149 f ≥ 2139095040 * 2^149` with NaN patterns
(above the infinity pattern) also mapping above that bound.
The store `o.u = f.u ^ expinf.u` in the Inf/NaN branch is dead: it is
overwritten by the unconditional `o.u = f.u >> 13` that follows. -/
def approx_float_to_half (u : Nat) : Nat :=
  -- unsigned int sign = f.u & sign_mask;  f.u ^= sign;
  let sign := u / 2 ^ 31 * 2 ^ 31
  let x := u % 2 ^ 31
  -- if (!(f.f < f32infty.u))  o.u = f.u ^ expinf.u;  (dead store; f.u unchanged)
  -- else { if (f.f > f16max.f) f.f = f16max.f;  f.f *= magic.f; }
  let f1 :=
    if ¬(x ≤ 255 * 2 ^ 23 ∧ val149 x < 2139095040 * 2 ^ 149) then x
    else fp32mul_pow2_neg112 (if val149 (143 * 2 ^ 23) < val149 x then 143 * 2 ^ 23 else x)
  -- o.u = f.u >> 13;  (uint16_t truncation)
  let o := f1 / 2 ^ 13 % 2 ^ 16
  -- o.u |= sign >> 16;
  if o / 2 ^ 15 % 2 = 0 then o + sign / 2 ^ 16 else o

/-- `half_to_float` (header 1, lines 382-403).  `magic = {113 << 23}` (value `2^-14`),
`shifted_exp = 0x7c00 << 13 = 31 << 23`.  In the zero/denormal branch the
float subtraction `o.f -= magic.f` subtracts `2^-14` from the value of the
pattern `113 << 23 | (mantissa << 13)`, which is at least `2^-14`. -/
def half_to_float (h : Nat) : Nat :=
  -- o.u = (h.u & 0x7fff) << 13;
  let o1 := h % 2 ^ 15 * 2 ^ 13
  -- unsigned int exp = shifted_exp & o.u;
  let exp := o1 / 2 ^ 23 % 32 * 2 ^ 23
  -- o.u += (127 - 15) << 23;
  let o2 := (o1 + 112 * 2 ^ 23) % 2 ^ 32
  let o3 :=
    -- if (exp == shifted_exp)  o.u += (128 - 16) << 23;
    if exp = 31 * 2 ^ 23 then (o2 + 112 * 2 ^ 23) % 2 ^ 32
    -- else if (exp == 0) { o.u += 1 << 23;  o.f -= magic.f; }
    else if exp = 0 then fp32sub_pos ((o2 + 2 ^ 23) % 2 ^ 32) (113 * 2 ^ 23)
    else o2
  -- o.u |= (h.u & 0x8000) << 16;  (OR of the single bit 31)
  if o3 / 2 ^ 31 % 2 = 0 then o3 + h / 2 ^ 15 % 2 * 2 ^ 15 * 2 ^ 16 else o3

/-- `float_to_half_reference` (header 2, lines 522-560): the dispatcher's
software encoder.  Identical algorithm to `float_to_half_fast` of header 1:
it rounds ties up (away from zero), not to even. -/
def float_to_half_reference (u : Nat) : Nat :=
  let fExp : Nat := u / 2 ^ 23 % 256
  let fMant := u % 2 ^ 23
  let fSign := u / 2 ^ 31 % 2
  let o :=
    if fExp = 255 then 31 * 2 ^ 10 + (if fMant ≠ 0 then 0x200 else 0)
    else
      let newexp : Int := (fExp : Int) - 127 + 15
      if 31 ≤ newexp then 31 * 2 ^ 10
      else if newexp ≤ 0 then
        if 14 - newexp ≤ 24 then
          let mant := fMant + 0x800000
          let o1 := mant / 2 ^ (14 - newexp).toNat % 2 ^ 10
          if mant / 2 ^ (13 - newexp).toNat % 2 = 1 then (o1 + 1) % 2 ^ 16 else o1
        else 0
      else
        let o1 := newexp.toNat % 32 * 2 ^ 10 + fMant / 2 ^ 13 % 2 ^ 10
        if fMant / 2 ^ 12 % 2 = 1 then (o1 + 1) % 2 ^ 16 else o1
  o % 2 ^ 15 + fSign * 2 ^ 15

/-- `float_to_half` (header 2, lines 586-593): on targets without the native
`fcvt` instruction (the `#else` branch) the dispatcher routes `encode` to
`float_to_half_reference`. -/
def float_to_half (u : Nat) : Nat := float_to_half_reference u

/-- Round the nonnegative real `n / 2^k` to a binary16 bit pattern,
nearest-even, subnormals supported, overflow to the infinity pattern `0x7C00`.
Mirror of `roundFP32pos` for the 16-bit format (bias 15, 10 mantissa bits,
smallest subnormal `2^-24`). -/
def roundFP16pos (n k : Nat) : Nat :=
  if n = 0 then 0
  else
    let L := nlog2 512 n
    if L + 14 < k then rne_div (n * 2 ^ 24) (2 ^ k)
    else
      let s := rne_div (n * 2 ^ 10) (2 ^ L)
      if s = 2 ^ 11 then
        if 31 ≤ L + 16 - k then 31 * 2 ^ 10 else (L + 16 - k) * 2 ^ 10
      else
        if 31 ≤ L + 15 - k then 31 * 2 ^ 10
        else (L + 15 - k) * 2 ^ 10 + (s - 2 ^ 10)

/-- Modelled from the spec: the hardware path of the Platform Dispatcher.
`__fcvt_f32_f16` (header 2, lines 477-485) is an inline-asm `fcvt` instruction,
not C code; per the spec it is a native single-instruction binary32→binary16
conversion, required to be bit-identical to the software path "under the
round-to-nearest-even assumption".  It is modelled as the IEEE-754
round-to-nearest-even conversion of the input value, with NaN inputs producing
the canonical quiet half NaN with the sign preserved. -/
def fcvt_f32_f16 (u : Nat) : Nat :=
  let sign := u / 2 ^ 31 % 2
  let x := u % 2 ^ 31
  let core := if 255 * 2 ^ 23 < x then 0x7e00 else roundFP16pos (val149 x) 149
  core + sign * 2 ^ 15

/-- Common round-to-nearest-even float→half result on a sign-stripped 32-bit
pattern `x < 2^31` (exponent field `e`, mantissa field `m`): NaN to the quiet
NaN `0x7E00`, overflow to `0x7C00`, normal results rebias and round the
mantissa to 10 bits, subnormal results round the hidden-bit mantissa shifted
by `126 - e`, everything below rounds to zero. -/
def halfRTNEcore (x : Nat) : Nat :=
  let e := x / 2 ^ 23
  let m := x % 2 ^ 23
  if e = 255 then (if m = 0 then 0x7c00 else 0x7e00)
  else if 143 ≤ e then 0x7c00
  else if 113 ≤ e then (e - 112) * 2 ^ 10 + rne_div m (2 ^ 13)
  else if e = 0 then 0
  else rne_div (2 ^ 23 + m) (2 ^ (126 - e))

/-- Exact value of a sign-stripped binary16 pattern `y < 2^15`, scaled by
`2^24` (the smallest positive binary16 subnormal is `2^-24`). -/
def val24 (y : Nat) : Nat :=
  if y / 2 ^ 10 = 0 then y % 2 ^ 10 else (2 ^ 10 + y % 2 ^ 10) * 2 ^ (y / 2 ^ 10 - 1)


/-! ### Helper lemmas about the rounding primitives -/

lemma two_pow_le_two_pow {a b : Nat} (h : a ≤ b) : 2 ^ a ≤ 2 ^ b :=
  Nat.pow_le_pow_right (by norm_num) h

lemma rne_div_le (n d : Nat) : rne_div n d ≤ n / d + 1 := by
  unfold rne_div; split <;> omega

lemma rne_div_eq_zero (n d : Nat) (h : 2 * n < d) : rne_div n d = 0 := by
  unfold rne_div
  have h1 : n < d := by omega
  rw [Nat.div_eq_of_lt h1, Nat.mod_eq_of_lt h1]
  split <;> omega

lemma rne_div_exact (n d : Nat) (hd : 0 < d) (h : d ∣ n) : rne_div n d = n / d := by
  unfold rne_div
  have h0 : n % d = 0 := Nat.mod_eq_zero_of_dvd h
  rw [h0]
  split <;> omega

lemma rne_div_mul_mul (n d k : Nat) (hk : 0 < k) : rne_div (n * k) (d * k) = rne_div n d := by
  unfold rne_div
  rw [Nat.mul_div_mul_right _ _ hk, Nat.mul_mod_mul_right]
  have h1 : 2 * (n % d * k) > d * k ↔ 2 * (n % d) > d := by
    rw [show 2 * (n % d * k) = 2 * (n % d) * k by ring]
    exact Nat.mul_lt_mul_right hk
  have h2 : 2 * (n % d * k) = d * k ↔ 2 * (n % d) = d := by
    rw [show 2 * (n % d * k) = 2 * (n % d) * k by ring]
    exact Nat.mul_left_inj (by omega)
  rw [if_congr (or_congr h1 (and_congr h2 Iff.rfl)) rfl rfl]

lemma rne_div_add_mul_even (a d c : Nat) (hd : 0 < d) (hc : c % 2 = 0) :
    rne_div (a + d * c) d = rne_div a d + c := by
  unfold rne_div
  rw [Nat.add_mul_div_left _ _ hd, Nat.add_mul_mod_self_left]
  have h2 : (a / d + c) % 2 = a / d % 2 := by omega
  rw [h2]
  split <;> omega

lemma nlog2_spec : ∀ fuel n : Nat, 0 < n → n < 2 ^ fuel →
    2 ^ nlog2 fuel n ≤ n ∧ n < 2 ^ (nlog2 fuel n + 1) := by
  intro fuel
  induction fuel with
  | zero => intro n h1 h2; simp only [pow_zero] at h2; omega
  | succ f ih =>
    intro n h1 h2
    rw [nlog2]
    by_cases h : 2 ≤ n
    · rw [if_pos h]
      have hpos : 0 < n / 2 := by omega
      have hp : 2 ^ (f + 1) = 2 * 2 ^ f := by rw [pow_succ]; ring
      have hlt : n / 2 < 2 ^ f := by omega
      obtain ⟨l1, l2⟩ := ih (n / 2) hpos hlt
      constructor
      · rw [pow_succ]; omega
      · rw [pow_succ]; omega
    · rw [if_neg h]
      constructor <;> simp only [pow_zero, zero_add, pow_one] <;> omega

lemma nlog2_eq {fuel a n : Nat} (hn : n < 2 ^ fuel) (h1 : 2 ^ a ≤ n) (h2 : n < 2 ^ (a + 1)) :
    nlog2 fuel n = a := by
  have hpos : 0 < n := Nat.lt_of_lt_of_le (Nat.two_pow_pos a) h1
  obtain ⟨s1, s2⟩ := nlog2_spec fuel n hpos hn
  rcases Nat.lt_trichotomy (nlog2 fuel n) a with h | h | h
  · exfalso
    have : 2 ^ (nlog2 fuel n + 1) ≤ 2 ^ a := two_pow_le_two_pow (by omega)
    omega
  · exact h
  · exfalso
    have : 2 ^ (a + 1) ≤ 2 ^ nlog2 fuel n := two_pow_le_two_pow (by omega)
    omega

lemma val149_normal (e m : Nat) (he : 0 < e) (hm : m < 2 ^ 23) :
    val149 (e * 2 ^ 23 + m) = (2 ^ 23 + m) * 2 ^ (e - 1) := by
  unfold val149
  have h1 : (e * 2 ^ 23 + m) / 2 ^ 23 = e := by omega
  have h2 : (e * 2 ^ 23 + m) % 2 ^ 23 = m := by omega
  rw [h1, h2, if_neg (by omega)]

lemma val149_subnormal (m : Nat) (hm : m < 2 ^ 23) : val149 m = m := by
  unfold val149
  rw [Nat.div_eq_of_lt hm, if_pos rfl]
  exact Nat.mod_eq_of_lt hm

lemma roundFP32pos_denorm_add (N : Nat) (hN : N < 2 ^ 135) :
    roundFP32pos (2 ^ 148 + N) 149 = 126 * 2 ^ 23 + rne_div N (2 ^ 125) := by
  have h148 : (0:Nat) < 2 ^ 148 := Nat.two_pow_pos 148
  have hne : 2 ^ 148 + N ≠ 0 := by omega
  have hL : nlog2 512 (2 ^ 148 + N) = 148 := by
    have ha : (2:Nat) ^ 135 ≤ 2 ^ 148 := two_pow_le_two_pow (by norm_num)
    have hb : (2:Nat) ^ 149 = 2 * 2 ^ 148 := by rw [pow_succ]; ring
    have hc : (2:Nat) ^ 149 ≤ 2 ^ 512 := two_pow_le_two_pow (by norm_num)
    exact nlog2_eq (by omega) (by omega) (by omega)
  have hq : rne_div N (2 ^ 125) ≤ 2 ^ 10 := by
    have hle := rne_div_le N (2 ^ 125)
    have : N / 2 ^ 125 < 2 ^ 10 := by omega
    omega
  have hs : rne_div ((2 ^ 148 + N) * 2 ^ 23) (2 ^ 148)
      = 2 ^ 23 + rne_div N (2 ^ 125) := by
    have he : (2 ^ 148 + N) * 2 ^ 23 = N * 2 ^ 23 + 2 ^ 148 * 2 ^ 23 := by ring
    rw [he, rne_div_add_mul_even _ _ _ (Nat.two_pow_pos 148) (by norm_num)]
    have h125 : (2:Nat) ^ 148 = 2 ^ 125 * 2 ^ 23 := by rw [← pow_add]
    rw [h125, rne_div_mul_mul _ _ _ (Nat.two_pow_pos 23)]
    ring
  unfold roundFP32pos
  rw [if_neg hne, hL]
  rw [if_neg (by omega), hs, if_neg (by omega), if_neg (by omega)]
  omega

lemma roundFP32pos_sub16 (m : Nat) (h1 : 0 < m) (h2 : m < 2 ^ 10) :
    roundFP32pos (m * 2 ^ 125) 149
      = (nlog2 512 m + 103) * 2 ^ 23 + (m * 2 ^ (23 - nlog2 512 m) - 2 ^ 23) := by
  have hm512 : m < 2 ^ 512 := lt_of_lt_of_le h2 (two_pow_le_two_pow (by norm_num))
  obtain ⟨s1, s2⟩ := nlog2_spec 512 m h1 hm512
  set lg := nlog2 512 m with hlg
  have hlg9 : lg ≤ 9 := by
    by_contra hc
    have : 2 ^ 10 ≤ 2 ^ lg := two_pow_le_two_pow (by omega)
    omega
  have hL : nlog2 512 (m * 2 ^ 125) = lg + 125 := by
    apply nlog2_eq
    · have ha : m * 2 ^ 125 < 2 ^ 10 * 2 ^ 125 :=
        (Nat.mul_lt_mul_right (Nat.two_pow_pos 125)).mpr h2
      have hb : (2:Nat) ^ 10 * 2 ^ 125 ≤ 2 ^ 512 := by
        rw [← pow_add]; exact two_pow_le_two_pow (by norm_num)
      omega
    · rw [pow_add]; exact Nat.mul_le_mul_right _ s1
    · rw [show lg + 125 + 1 = lg + 1 + 125 by ring, pow_add]
      exact (Nat.mul_lt_mul_right (Nat.two_pow_pos 125)).mpr s2
  have hmpos : 0 < m * 2 ^ 125 := Nat.mul_pos h1 (Nat.two_pow_pos 125)
  have hsval : rne_div (m * 2 ^ 125 * 2 ^ 23) (2 ^ (lg + 125)) = m * 2 ^ (23 - lg) := by
    have he : m * 2 ^ 125 * 2 ^ 23 = m * 2 ^ (23 - lg) * 2 ^ (lg + 125) := by
      rw [mul_assoc, mul_assoc, ← pow_add, ← pow_add]
      congr 2
      omega
    rw [he, rne_div_exact _ _ (Nat.two_pow_pos _) (Dvd.intro_left _ rfl),
      Nat.mul_div_cancel _ (Nat.two_pow_pos _)]
  have hsbound : m * 2 ^ (23 - lg) < 2 ^ 24 := by
    have ha : m * 2 ^ (23 - lg) < 2 ^ (lg + 1) * 2 ^ (23 - lg) :=
      (Nat.mul_lt_mul_right (Nat.two_pow_pos _)).mpr s2
    have hb : (2:Nat) ^ (lg + 1) * 2 ^ (23 - lg) = 2 ^ 24 := by
      rw [← pow_add]; congr 1; omega
    omega
  unfold roundFP32pos
  rw [if_neg (by omega), hL, if_neg (by omega), hsval, if_neg (by omega), if_neg (by omega)]
  congr 2

lemma roundFP32pos_le (n k : Nat) (hn : n < 2 ^ 512) : roundFP32pos n k ≤ 255 * 2 ^ 23 := by
  unfold roundFP32pos
  by_cases h0 : n = 0
  · rw [if_pos h0]; exact Nat.zero_le _
  · rw [if_neg h0]
    obtain ⟨s1, s2⟩ := nlog2_spec 512 n (by omega) hn
    set L := nlog2 512 n with hL
    by_cases hb : L + 126 < k
    · rw [if_pos hb]
      have hle := rne_div_le (n * 2 ^ 149) (2 ^ k)
      have hlt : n * 2 ^ 149 < 2 ^ k * 2 ^ 23 := by
        have ha : n * 2 ^ 149 < 2 ^ (L + 1) * 2 ^ 149 :=
          (Nat.mul_lt_mul_right (Nat.two_pow_pos _)).mpr s2
        have hb2 : (2:Nat) ^ (L + 1) * 2 ^ 149 ≤ 2 ^ k * 2 ^ 23 := by
          rw [← pow_add, ← pow_add]; exact two_pow_le_two_pow (by omega)
        omega
      have hq : n * 2 ^ 149 / 2 ^ k < 2 ^ 23 := Nat.div_lt_of_lt_mul hlt
      omega
    · rw [if_neg hb]
      have hs : rne_div (n * 2 ^ 23) (2 ^ L) ≤ 2 ^ 24 := by
        have hle := rne_div_le (n * 2 ^ 23) (2 ^ L)
        have hlt : n * 2 ^ 23 < 2 ^ L * 2 ^ 24 := by
          have ha : n * 2 ^ 23 < 2 ^ (L + 1) * 2 ^ 23 :=
            (Nat.mul_lt_mul_right (Nat.two_pow_pos _)).mpr s2
          have hb2 : (2:Nat) ^ (L + 1) * 2 ^ 23 = 2 ^ L * 2 ^ 24 := by
            rw [← pow_add, ← pow_add]
          omega
        have hq : n * 2 ^ 23 / 2 ^ L < 2 ^ 24 := Nat.div_lt_of_lt_mul hlt
        omega
      by_cases hs24 : rne_div (n * 2 ^ 23) (2 ^ L) = 2 ^ 24
      · rw [if_pos hs24]; split <;> omega
      · rw [if_neg hs24]; split <;> omega

lemma roundFP32pos_le31 (n : Nat) (hn : n ≤ 2 ^ 165) : roundFP32pos n 261 ≤ 31 * 2 ^ 23 := by
  unfold roundFP32pos
  by_cases h0 : n = 0
  · rw [if_pos h0]; exact Nat.zero_le _
  · rw [if_neg h0]
    have hn512 : n < 2 ^ 512 :=
      lt_of_le_of_lt hn (by exact Nat.pow_lt_pow_right (by norm_num) (by norm_num))
    obtain ⟨s1, s2⟩ := nlog2_spec 512 n (by omega) hn512
    set L := nlog2 512 n with hL
    have hL165 : L ≤ 165 := by
      by_contra hc
      have : 2 ^ 166 ≤ 2 ^ L := two_pow_le_two_pow (by omega)
      have : (2:Nat) ^ 165 < 2 ^ 166 := by norm_num
      omega
    have hcase165 : L = 165 → rne_div (n * 2 ^ 23) (2 ^ L) = 2 ^ 23 := by
      intro h165
      have hn165 : n = 2 ^ 165 := by
        rw [h165] at s1; omega
      rw [h165, hn165, show (2:Nat) ^ 165 * 2 ^ 23 = 2 ^ 23 * 2 ^ 165 by ring,
        rne_div_exact _ _ (Nat.two_pow_pos _) (Dvd.intro_left _ rfl),
        Nat.mul_div_cancel _ (Nat.two_pow_pos _)]
    by_cases hb : L + 126 < 261
    · rw [if_pos hb]
      have hle := rne_div_le (n * 2 ^ 149) (2 ^ 261)
      have hlt : n * 2 ^ 149 < 2 ^ 261 * 2 ^ 23 := by
        have ha : n * 2 ^ 149 < 2 ^ (L + 1) * 2 ^ 149 :=
          (Nat.mul_lt_mul_right (Nat.two_pow_pos _)).mpr s2
        have hb2 : (2:Nat) ^ (L + 1) * 2 ^ 149 ≤ 2 ^ 261 * 2 ^ 23 := by
          rw [← pow_add, ← pow_add]; exact two_pow_le_two_pow (by omega)
        omega
      have hq : n * 2 ^ 149 / 2 ^ 261 < 2 ^ 23 := Nat.div_lt_of_lt_mul hlt
      omega
    · rw [if_neg hb]
      have hs : rne_div (n * 2 ^ 23) (2 ^ L) ≤ 2 ^ 24 := by
        have hle := rne_div_le (n * 2 ^ 23) (2 ^ L)
        have hlt : n * 2 ^ 23 < 2 ^ L * 2 ^ 24 := by
          have ha : n * 2 ^ 23 < 2 ^ (L + 1) * 2 ^ 23 :=
            (Nat.mul_lt_mul_right (Nat.two_pow_pos _)).mpr s2
          have hb2 : (2:Nat) ^ (L + 1) * 2 ^ 23 = 2 ^ L * 2 ^ 24 := by
            rw [← pow_add, ← pow_add]
          omega
        have hq : n * 2 ^ 23 / 2 ^ L < 2 ^ 24 := Nat.div_lt_of_lt_mul hlt
        omega
      by_cases hs24 : rne_div (n * 2 ^ 23) (2 ^ L) = 2 ^ 24
      · rw [if_pos hs24]
        by_cases h165 : L = 165
        · exfalso
          have := hcase165 h165
          rw [this] at hs24
          norm_num at hs24
        · split <;> omega
      · rw [if_neg hs24]
        by_cases h165 : L = 165
        · have := hcase165 h165
          rw [this]
          split <;> omega
        · split <;> omega

lemma halfRTNEcore_lt (x : Nat) : halfRTNEcore x < 2 ^ 15 := by
  simp only [halfRTNEcore, rne_div]
  have hm : x % 2 ^ 23 < 2 ^ 23 := Nat.mod_lt _ (by norm_num)
  have hd13 : x % 2 ^ 23 / 2 ^ 13 < 2 ^ 10 := by omega
  split_ifs with h1 h2 h3 h4 h5 <;> try omega
  all_goals {
    have hpow : (2:Nat) ^ 14 ≤ 2 ^ (126 - x / 2 ^ 23) := two_pow_le_two_pow (by omega)
    have hdle : (2 ^ 23 + x % 2 ^ 23) / 2 ^ (126 - x / 2 ^ 23) ≤ (2 ^ 23 + x % 2 ^ 23) / 2 ^ 14 :=
      Nat.div_le_div_left hpow (by norm_num)
    have h14 : (2 ^ 23 + x % 2 ^ 23) / 2 ^ 14 < 2 ^ 10 := by omega
    omega }

set_option maxHeartbeats 3200000 in
lemma full_rtne_core_char (s e m : Nat) (hs : s ≤ 1) (he : e ≤ 255) (hm : m < 2 ^ 23) :
    float_to_half_full_rtne (s * 2 ^ 31 + e * 2 ^ 23 + m)
      = halfRTNEcore (e * 2 ^ 23 + m) + s * 2 ^ 15 := by
  have hfe : (s * 2 ^ 31 + e * 2 ^ 23 + m) / 2 ^ 23 % 256 = e := by omega
  have hfm : (s * 2 ^ 31 + e * 2 ^ 23 + m) % 2 ^ 23 = m := by omega
  have hfs : (s * 2 ^ 31 + e * 2 ^ 23 + m) / 2 ^ 31 % 2 = s := by omega
  have hce : (e * 2 ^ 23 + m) / 2 ^ 23 = e := by omega
  have hcm : (e * 2 ^ 23 + m) % 2 ^ 23 = m := by omega
  unfold float_to_half_full_rtne halfRTNEcore rne_div
  simp only [hfe, hfm, hfs, hce, hcm]
  rcases Nat.lt_or_ge e 113 with hr2 | hr2
  · rcases Nat.lt_or_ge e 102 with hr | hr
    · by_cases h0 : e = 0
      · subst h0; norm_num
      · have hpow : (2:Nat) ^ 25 ≤ 2 ^ (126 - e) := two_pow_le_two_pow (by omega)
        have hmod : (2 ^ 23 + m) % 2 ^ (126 - e) ≤ 2 ^ 23 + m := Nat.mod_le _ _
        have hdiv : (2 ^ 23 + m) / 2 ^ (126 - e) = 0 := Nat.div_eq_of_lt (by omega)
        split_ifs <;> omega
    · interval_cases e <;>
        (simp only [Nat.cast_ofNat, Int.reduceSub, Int.reduceAdd, Int.reduceToNat]
         split_ifs <;> omega)
  · split_ifs <;> omega

set_option maxHeartbeats 3200000 in
lemma fast3_rtne_core_char (s e m : Nat) (hs : s ≤ 1) (he : e ≤ 255) (hm : m < 2 ^ 23) :
    float_to_half_fast3_rtne (s * 2 ^ 31 + e * 2 ^ 23 + m)
      = halfRTNEcore (e * 2 ^ 23 + m) + s * 2 ^ 15 := by
  have hdiv : (s * 2 ^ 31 + e * 2 ^ 23 + m) / 2 ^ 31 = s := by omega
  have hx : (s * 2 ^ 31 + e * 2 ^ 23 + m) % 2 ^ 31 = e * 2 ^ 23 + m := by omega
  have hce : (e * 2 ^ 23 + m) / 2 ^ 23 = e := by omega
  have hcm : (e * 2 ^ 23 + m) % 2 ^ 23 = m := by omega
  rcases Nat.lt_or_ge e 113 with hlt113 | hge113
  · have hN : val149 (e * 2 ^ 23 + m) < 2 ^ 135 := by
      by_cases h0 : e = 0
      · subst h0
        rw [show 0 * 2 ^ 23 + m = m from by ring, val149_subnormal m hm]
        omega
      · rw [val149_normal e m (by omega) hm]
        have h1 : 2 ^ 23 + m < 2 ^ 24 := by omega
        have h2 : (2:Nat) ^ (e - 1) ≤ 2 ^ 111 := two_pow_le_two_pow (by omega)
        calc (2 ^ 23 + m) * 2 ^ (e - 1) < 2 ^ 24 * 2 ^ (e - 1) :=
              (Nat.mul_lt_mul_right (Nat.two_pow_pos _)).mpr h1
          _ ≤ 2 ^ 24 * 2 ^ 111 := Nat.mul_le_mul_left _ h2
          _ = 2 ^ 135 := by rw [← pow_add]
    have hov : fp32add_pos (e * 2 ^ 23 + m) (126 * 2 ^ 23)
        = 126 * 2 ^ 23 + rne_div (val149 (e * 2 ^ 23 + m)) (2 ^ 125) := by
      unfold fp32add_pos
      have hmagic : val149 (126 * 2 ^ 23) = 2 ^ 148 := by decide
      rw [hmagic, Nat.add_comm (val149 (e * 2 ^ 23 + m)) (2 ^ 148)]
      exact roundFP32pos_denorm_add _ hN
    have hqle : rne_div (val149 (e * 2 ^ 23 + m)) (2 ^ 125) ≤ 2 ^ 10 := by
      have h1 := rne_div_le (val149 (e * 2 ^ 23 + m)) (2 ^ 125)
      have h2 : val149 (e * 2 ^ 23 + m) / 2 ^ 125 < 2 ^ 10 := by omega
      omega
    unfold float_to_half_fast3_rtne
    simp only [hdiv, hx]
    have hc1 : ¬(143 * 2 ^ 23 ≤ e * 2 ^ 23 + m) := by omega
    have hc2 : e * 2 ^ 23 + m < 113 * 2 ^ 23 := by omega
    simp only [if_neg hc1, if_pos hc2, hov]
    unfold halfRTNEcore
    simp only [hce, hcm]
    have hk1 : ¬(e = 255) := by omega
    have hk2 : ¬(143 ≤ e) := by omega
    have hk3 : ¬(113 ≤ e) := by omega
    simp only [if_neg hk1, if_neg hk2, if_neg hk3]
    by_cases h0 : e = 0
    · subst h0
      have hq0 : rne_div (val149 (0 * 2 ^ 23 + m)) (2 ^ 125) = 0 := by
        rw [show 0 * 2 ^ 23 + m = m from by ring, val149_subnormal m hm]
        exact rne_div_eq_zero _ _ (by omega)
      rw [hq0, if_pos rfl]
      split_ifs <;> omega
    · have hsplit : (2:Nat) ^ 125 = 2 ^ (126 - e) * 2 ^ (e - 1) := by
        rw [← pow_add]; congr 1; omega
      have hqv : rne_div (val149 (e * 2 ^ 23 + m)) (2 ^ 125)
          = rne_div (2 ^ 23 + m) (2 ^ (126 - e)) := by
        rw [val149_normal e m (by omega) hm, hsplit,
          rne_div_mul_mul _ _ _ (Nat.two_pow_pos _)]
      rw [hqv] at hqle ⊢
      rw [if_neg h0]
      split_ifs <;> omega
  · unfold float_to_half_fast3_rtne halfRTNEcore rne_div
    simp only [hdiv, hx, hce, hcm]
    by_cases hhi : 143 ≤ e
    · split_ifs <;> omega
    · have hc1 : ¬(143 * 2 ^ 23 ≤ e * 2 ^ 23 + m) := by omega
      have hc2 : ¬(e * 2 ^ 23 + m < 113 * 2 ^ 23) := by omega
      have hc3 : ¬(e = 255) := by omega
      simp only [if_neg hc1, if_neg hc2, if_neg hc3, if_neg hhi, if_pos hge113]
      have hw1 : (e * 2 ^ 23 + m + (2 ^ 32 - 112 * 2 ^ 23) + 4095) % 2 ^ 32
          = (e - 112) * 2 ^ 23 + (m + 4095) := by omega
      have hodd : (e * 2 ^ 23 + m) / 2 ^ 13 % 2 = m / 2 ^ 13 % 2 := by omega
      simp only [hw1, hodd]
      have hw2 : ((e - 112) * 2 ^ 23 + (m + 4095) + m / 2 ^ 13 % 2) % 2 ^ 32
          = (e - 112) * 2 ^ 23 + (m + 4095) + m / 2 ^ 13 % 2 := Nat.mod_eq_of_lt (by omega)
      simp only [hw2]
      have hw3 : ((e - 112) * 2 ^ 23 + (m + 4095) + m / 2 ^ 13 % 2) / 2 ^ 13
          = (e - 112) * 2 ^ 10 + (m + 4095 + m / 2 ^ 13 % 2) / 2 ^ 13 := by omega
      simp only [hw3]
      have hlt : (e - 112) * 2 ^ 10 + (m + 4095 + m / 2 ^ 13 % 2) / 2 ^ 13 < 2 ^ 15 := by omega
      have hx16 : ((e - 112) * 2 ^ 10 + (m + 4095 + m / 2 ^ 13 % 2) / 2 ^ 13) % 2 ^ 16
          = (e - 112) * 2 ^ 10 + (m + 4095 + m / 2 ^ 13 % 2) / 2 ^ 13 :=
        Nat.mod_eq_of_lt (by omega)
      simp only [hx16, Nat.div_eq_of_lt hlt]
      rw [if_pos trivial]
      have hs16 : s * 2 ^ 31 / 2 ^ 16 = s * 2 ^ 15 := by omega
      rw [hs16]
      split_ifs <;> omega

/-- C1: for every 32-bit input pattern, assuming the host arithmetic rounds to
nearest-even (modelled by `fp32add_pos` / `roundFP32pos`), the reference
round-ties-to-even converter `float_to_half_full_rtne` and the fast variant
`float_to_half_fast3_rtne` return the same 16-bit output. -/
theorem claim_C1_full_rtne_eq_fast3_rtne (u : Nat) (hu : u < 2 ^ 32) :
    float_to_half_full_rtne u = float_to_half_fast3_rtne u := by
  obtain ⟨s, e, m, hs, he, hm, rfl⟩ :
      ∃ s e m, s ≤ 1 ∧ e ≤ 255 ∧ m < 2 ^ 23 ∧ u = s * 2 ^ 31 + e * 2 ^ 23 + m :=
    ⟨u / 2 ^ 31, u / 2 ^ 23 % 256, u % 2 ^ 23, by omega, by omega, by omega, by omega⟩
  rw [full_rtne_core_char s e m hs he hm, fast3_rtne_core_char s e m hs he hm]

/-- Witness for C1: the two converters agree at the concrete input `0x3F800000` (1.0f). -/
theorem claim_C1_witness :
    (0x3F800000 : Nat) < 2 ^ 32 ∧
      float_to_half_full_rtne 0x3F800000 = float_to_half_fast3_rtne 0x3F800000 :=
  ⟨by decide, claim_C1_full_rtne_eq_fast3_rtne 0x3F800000 (by decide)⟩

lemma val149_lt_big (x : Nat) (hx : x < 2 ^ 31) : val149 x < 2 ^ 278 := by
  unfold val149
  have hmx : x % 2 ^ 23 < 2 ^ 23 := Nat.mod_lt _ (by norm_num)
  split_ifs with h
  · exact lt_of_lt_of_le hmx (two_pow_le_two_pow (by norm_num))
  · have h1 : 2 ^ 23 + x % 2 ^ 23 < 2 ^ 24 := by omega
    have h2 : (2:Nat) ^ (x / 2 ^ 23 - 1) ≤ 2 ^ 254 := two_pow_le_two_pow (by omega)
    calc (2 ^ 23 + x % 2 ^ 23) * 2 ^ (x / 2 ^ 23 - 1) < 2 ^ 24 * 2 ^ (x / 2 ^ 23 - 1) :=
          (Nat.mul_lt_mul_right (Nat.two_pow_pos _)).mpr h1
      _ ≤ 2 ^ 24 * 2 ^ 254 := Nat.mul_le_mul_left _ h2
      _ = 2 ^ 278 := by rw [← pow_add]

lemma fp32sub_pos_le (a b : Nat) (ha : a < 2 ^ 31) : fp32sub_pos a b ≤ 255 * 2 ^ 23 := by
  unfold fp32sub_pos
  apply roundFP32pos_le
  have h1 : val149 a < 2 ^ 278 := val149_lt_big a ha
  have h2 : val149 a - val149 b ≤ val149 a := Nat.sub_le _ _
  have h3 : (2:Nat) ^ 278 ≤ 2 ^ 512 := two_pow_le_two_pow (by norm_num)
  omega

lemma half_to_float_denorm (mh : Nat) (hm : mh < 2 ^ 10) :
    fp32sub_pos (113 * 2 ^ 23 + mh * 2 ^ 13) (113 * 2 ^ 23)
      = (if mh = 0 then 0
         else (nlog2 512 mh + 103) * 2 ^ 23 + (mh * 2 ^ (23 - nlog2 512 mh) - 2 ^ 23)) := by
  unfold fp32sub_pos
  have hv1 : val149 (113 * 2 ^ 23 + mh * 2 ^ 13) = (2 ^ 23 + mh * 2 ^ 13) * 2 ^ 112 :=
    val149_normal 113 (mh * 2 ^ 13) (by omega) (by omega)
  have hv2 : val149 (113 * 2 ^ 23) = 2 ^ 135 := by decide
  rw [hv1, hv2]
  have hdiff : (2 ^ 23 + mh * 2 ^ 13) * 2 ^ 112 - 2 ^ 135 = mh * 2 ^ 125 := by
    have e1 : (2:Nat) ^ 135 = 2 ^ 23 * 2 ^ 112 := by rw [← pow_add]
    have e2 : (2:Nat) ^ 125 = 2 ^ 13 * 2 ^ 112 := by rw [← pow_add]
    have e3 : (2 ^ 23 + mh * 2 ^ 13) * 2 ^ 112 = 2 ^ 23 * 2 ^ 112 + mh * (2 ^ 13 * 2 ^ 112) := by
      ring
    rw [e3, ← e1, ← e2]
    omega
  rw [hdiff]
  by_cases hm0 : mh = 0
  · subst hm0
    rw [if_pos rfl, show (0:Nat) * 2 ^ 125 = 0 from by ring]
    unfold roundFP32pos
    simp
  · rw [if_neg hm0]
    exact roundFP32pos_sub16 mh (by omega) hm

lemma half_to_float_char (s eh mh : Nat) (hs : s ≤ 1) (he : eh ≤ 31) (hm : mh < 2 ^ 10) :
    half_to_float (s * 2 ^ 15 + eh * 2 ^ 10 + mh)
      = s * 2 ^ 31 +
          (if eh = 31 then 255 * 2 ^ 23 + mh * 2 ^ 13
           else if eh = 0 then
             (if mh = 0 then 0
              else (nlog2 512 mh + 103) * 2 ^ 23 + (mh * 2 ^ (23 - nlog2 512 mh) - 2 ^ 23))
           else (eh + 112) * 2 ^ 23 + mh * 2 ^ 13) := by
  have h15 : (s * 2 ^ 15 + eh * 2 ^ 10 + mh) % 2 ^ 15 = eh * 2 ^ 10 + mh := by omega
  have hsgn : (s * 2 ^ 15 + eh * 2 ^ 10 + mh) / 2 ^ 15 % 2 = s := by omega
  have ho1 : (eh * 2 ^ 10 + mh) * 2 ^ 13 = eh * 2 ^ 23 + mh * 2 ^ 13 := by ring
  have hexp : (eh * 2 ^ 23 + mh * 2 ^ 13) / 2 ^ 23 % 32 * 2 ^ 23 = eh * 2 ^ 23 := by omega
  have ho2 : (eh * 2 ^ 23 + mh * 2 ^ 13 + 112 * 2 ^ 23) % 2 ^ 32
      = (eh + 112) * 2 ^ 23 + mh * 2 ^ 13 := by omega
  unfold half_to_float
  simp only [h15, hsgn, ho1, hexp, ho2]
  by_cases h31 : eh = 31
  · subst h31
    rw [if_pos (show (31:Nat) * 2 ^ 23 = 31 * 2 ^ 23 from rfl)]
    have ho3 : ((31 + 112) * 2 ^ 23 + mh * 2 ^ 13 + 112 * 2 ^ 23) % 2 ^ 32
        = 255 * 2 ^ 23 + mh * 2 ^ 13 := by omega
    rw [ho3]
    have hq : (255 * 2 ^ 23 + mh * 2 ^ 13) / 2 ^ 31 = 0 := Nat.div_eq_of_lt (by omega)
    rw [hq, if_pos (show (0:Nat) % 2 = 0 from rfl), if_pos (show (31:Nat) = 31 from rfl)]
    omega
  · by_cases h0 : eh = 0
    · subst h0
      rw [if_neg (show ¬(0:Nat) * 2 ^ 23 = 31 * 2 ^ 23 by omega),
        if_pos (show (0:Nat) * 2 ^ 23 = 0 by omega)]
      have ho2' : ((0 + 112) * 2 ^ 23 + mh * 2 ^ 13 + 2 ^ 23) % 2 ^ 32
          = 113 * 2 ^ 23 + mh * 2 ^ 13 := by omega
      rw [ho2', half_to_float_denorm mh hm]
      have hlt31 : (if mh = 0 then 0
          else (nlog2 512 mh + 103) * 2 ^ 23 + (mh * 2 ^ (23 - nlog2 512 mh) - 2 ^ 23))
            < 2 ^ 31 := by
        split_ifs with hz
        · omega
        · obtain ⟨s1, s2⟩ := nlog2_spec 512 mh (by omega)
            (lt_of_lt_of_le hm (two_pow_le_two_pow (by norm_num)))
          have hlg : nlog2 512 mh ≤ 9 := by
            by_contra hc
            have : 2 ^ 10 ≤ 2 ^ nlog2 512 mh := two_pow_le_two_pow (by omega)
            omega
          have hup : mh * 2 ^ (23 - nlog2 512 mh) < 2 ^ 24 := by
            have h1 : mh * 2 ^ (23 - nlog2 512 mh)
                < 2 ^ (nlog2 512 mh + 1) * 2 ^ (23 - nlog2 512 mh) :=
              (Nat.mul_lt_mul_right (Nat.two_pow_pos _)).mpr s2
            have h2 : (2:Nat) ^ (nlog2 512 mh + 1) * 2 ^ (23 - nlog2 512 mh) ≤ 2 ^ 24 := by
              rw [← pow_add]; exact two_pow_le_two_pow (by omega)
            omega
          omega
      rw [Nat.div_eq_of_lt hlt31, if_pos (show (0:Nat) % 2 = 0 from rfl),
        if_neg (show ¬(0:Nat) = 31 by omega), if_pos (show (0:Nat) = 0 from rfl)]
      omega
    · rw [if_neg (show ¬eh * 2 ^ 23 = 31 * 2 ^ 23 by omega),
        if_neg (show ¬eh * 2 ^ 23 = 0 by omega)]
      have hq : ((eh + 112) * 2 ^ 23 + mh * 2 ^ 13) / 2 ^ 31 = 0 := Nat.div_eq_of_lt (by omega)
      rw [hq, if_pos (show (0:Nat) % 2 = 0 from rfl), if_neg h31, if_neg h0]
      omega

/-- C3 counterexample: the 16-bit NaN pattern `0x7C01` does not round-trip:
`half_to_float` widens it to a binary32 NaN with payload `1 << 13`, and
`float_to_half_full_rtne` maps every NaN to the canonical quiet NaN `0x7E00`,
so the claimed identity `float_to_half(half_to_float h) = h` fails at `h = 0x7C01`. -/
theorem claim_C3_counterexample :
    float_to_half_full_rtne (half_to_float 0x7C01) = 0x7E00 ∧ (0x7E00 : Nat) ≠ 0x7C01 := by
  decide

/-- C3 (amended): for every 16-bit pattern `h` that is not a NaN with a
non-canonical payload (i.e. whenever the exponent field is all-ones the
mantissa is `0` or the canonical quiet payload `0x200`), converting `h` with
`half_to_float` and back with `float_to_half_full_rtne` yields exactly `h`. -/
theorem claim_C3_roundtrip (h : Nat) (hh : h < 2 ^ 16)
    (hnan : h / 2 ^ 10 % 32 = 31 → h % 2 ^ 10 = 0 ∨ h % 2 ^ 10 = 0x200) :
    float_to_half_full_rtne (half_to_float h) = h := by
  obtain ⟨s, eh, mh, hs, he, hm, rfl⟩ :
      ∃ s eh mh, s ≤ 1 ∧ eh ≤ 31 ∧ mh < 2 ^ 10 ∧ h = s * 2 ^ 15 + eh * 2 ^ 10 + mh :=
    ⟨h / 2 ^ 15, h / 2 ^ 10 % 32, h % 2 ^ 10, by omega, by omega, by omega, by omega⟩
  rw [half_to_float_char s eh mh hs he hm]
  by_cases h31 : eh = 31
  · subst h31
    rw [if_pos rfl]
    have hmc : mh = 0 ∨ mh = 0x200 := by
      have hcall := hnan (by omega)
      rcases hcall with h1 | h1
      · left; omega
      · right; omega
    have hrw : s * 2 ^ 31 + (255 * 2 ^ 23 + mh * 2 ^ 13)
        = s * 2 ^ 31 + 255 * 2 ^ 23 + mh * 2 ^ 13 := by ring
    rw [hrw, full_rtne_core_char s 255 (mh * 2 ^ 13) hs (by omega) (by omega)]
    rcases hmc with h1 | h1 <;> subst h1
    · have hv : halfRTNEcore (255 * 2 ^ 23 + 0 * 2 ^ 13) = 0x7c00 := by decide
      rw [hv]; omega
    · have hv : halfRTNEcore (255 * 2 ^ 23 + 0x200 * 2 ^ 13) = 0x7e00 := by decide
      rw [hv]; omega
  · by_cases h0 : eh = 0
    · subst h0
      rw [if_neg (show ¬(0:Nat) = 31 by omega), if_pos rfl]
      by_cases hz : mh = 0
      · subst hz
        rw [if_pos rfl]
        rw [show s * 2 ^ 31 + 0 = s * 2 ^ 31 + 0 * 2 ^ 23 + 0 from by ring,
          full_rtne_core_char s 0 0 hs (by omega) (by omega)]
        have hv : halfRTNEcore (0 * 2 ^ 23 + 0) = 0 := by decide
        rw [hv]; omega
      · rw [if_neg hz]
        obtain ⟨s1, s2⟩ := nlog2_spec 512 mh (by omega)
          (lt_of_lt_of_le hm (two_pow_le_two_pow (by norm_num)))
        set lg := nlog2 512 mh with hlgdef
        have hlg : lg ≤ 9 := by
          by_contra hc
          have : 2 ^ 10 ≤ 2 ^ lg := two_pow_le_two_pow (by omega)
          omega
        have hpowsum : (2:Nat) ^ lg * 2 ^ (23 - lg) = 2 ^ 23 := by
          rw [← pow_add]; congr 1; omega
        have hge : 2 ^ 23 ≤ mh * 2 ^ (23 - lg) := by
          have := Nat.mul_le_mul_right (2 ^ (23 - lg)) s1
          omega
        have hup : mh * 2 ^ (23 - lg) < 2 ^ 24 := by
          have h1 : mh * 2 ^ (23 - lg) < 2 ^ (lg + 1) * 2 ^ (23 - lg) :=
            (Nat.mul_lt_mul_right (Nat.two_pow_pos _)).mpr s2
          have h2 : (2:Nat) ^ (lg + 1) * 2 ^ (23 - lg) ≤ 2 ^ 24 := by
            rw [← pow_add]; exact two_pow_le_two_pow (by omega)
          omega
        have hMlt : mh * 2 ^ (23 - lg) - 2 ^ 23 < 2 ^ 23 := by omega
        have hrw : s * 2 ^ 31 + ((lg + 103) * 2 ^ 23 + (mh * 2 ^ (23 - lg) - 2 ^ 23))
            = s * 2 ^ 31 + (lg + 103) * 2 ^ 23 + (mh * 2 ^ (23 - lg) - 2 ^ 23) := by ring
        rw [hrw, full_rtne_core_char s (lg + 103) _ hs (by omega) hMlt]
        unfold halfRTNEcore
        have hxe : ((lg + 103) * 2 ^ 23 + (mh * 2 ^ (23 - lg) - 2 ^ 23)) / 2 ^ 23
            = lg + 103 := by omega
        have hxm : ((lg + 103) * 2 ^ 23 + (mh * 2 ^ (23 - lg) - 2 ^ 23)) % 2 ^ 23
            = mh * 2 ^ (23 - lg) - 2 ^ 23 := by omega
        simp only [hxe, hxm]
        rw [if_neg (show ¬lg + 103 = 255 by omega), if_neg (show ¬143 ≤ lg + 103 by omega),
          if_neg (show ¬113 ≤ lg + 103 by omega), if_neg (show ¬lg + 103 = 0 by omega)]
        have hre : 2 ^ 23 + (mh * 2 ^ (23 - lg) - 2 ^ 23) = mh * 2 ^ (23 - lg) := by omega
        have hshift : 126 - (lg + 103) = 23 - lg := by omega
        rw [hre, hshift]
        have hdv : rne_div (mh * 2 ^ (23 - lg)) (2 ^ (23 - lg)) = mh := by
          rw [rne_div_exact _ _ (Nat.two_pow_pos _) (Dvd.intro_left _ rfl),
            Nat.mul_div_cancel _ (Nat.two_pow_pos _)]
        rw [hdv]
        omega
    · rw [if_neg h31, if_neg h0]
      have hrw : s * 2 ^ 31 + ((eh + 112) * 2 ^ 23 + mh * 2 ^ 13)
          = s * 2 ^ 31 + (eh + 112) * 2 ^ 23 + mh * 2 ^ 13 := by ring
      rw [hrw, full_rtne_core_char s (eh + 112) (mh * 2 ^ 13) hs (by omega) (by omega)]
      unfold halfRTNEcore
      have hxe : ((eh + 112) * 2 ^ 23 + mh * 2 ^ 13) / 2 ^ 23 = eh + 112 := by omega
      have hxm : ((eh + 112) * 2 ^ 23 + mh * 2 ^ 13) % 2 ^ 23 = mh * 2 ^ 13 := by omega
      simp only [hxe, hxm]
      rw [if_neg (show ¬eh + 112 = 255 by omega), if_neg (show ¬143 ≤ eh + 112 by omega),
        if_pos (show 113 ≤ eh + 112 by omega)]
      have hdv : rne_div (mh * 2 ^ 13) (2 ^ 13) = mh := by
        rw [rne_div_exact _ _ (Nat.two_pow_pos _) (Dvd.intro_left _ rfl),
          Nat.mul_div_cancel _ (Nat.two_pow_pos _)]
      rw [hdv]
      omega

/-- Witness for C3 (amended): the round trip is the identity at `h = 0x3C00` (1.0). -/
theorem claim_C3_witness :
    (0x3C00 : Nat) < 2 ^ 16 ∧ float_to_half_full_rtne (half_to_float 0x3C00) = 0x3C00 :=
  ⟨by decide, claim_C3_roundtrip 0x3C00 (by decide) (by decide)⟩

lemma val24_normal (e m : Nat) (he : 0 < e) (hm : m < 2 ^ 10) :
    val24 (e * 2 ^ 10 + m) = (2 ^ 10 + m) * 2 ^ (e - 1) := by
  unfold val24
  have h1 : (e * 2 ^ 10 + m) / 2 ^ 10 = e := by omega
  have h2 : (e * 2 ^ 10 + m) % 2 ^ 10 = m := by omega
  rw [h1, h2, if_neg (by omega)]

lemma val24_subnormal (m : Nat) (hm : m < 2 ^ 10) : val24 m = m := by
  unfold val24
  rw [Nat.div_eq_of_lt hm, if_pos rfl]
  exact Nat.mod_eq_of_lt hm

/-- C7: `half_to_float` is a total function over all 2^16 input patterns and
never rounds: the sign bit is copied, every finite input maps to a finite
output denoting exactly the same real value (`val149 output = val24 input * 2^125`,
both sides the value scaled by `2^149`), and half Infinity `0x7C00` maps to
single Infinity `0x7F800000`. -/
theorem claim_C7_half_to_float_exact (h : Nat) (hh : h < 2 ^ 16) :
    half_to_float h / 2 ^ 31 = h / 2 ^ 15 ∧
    (h / 2 ^ 10 % 32 ≠ 31 →
      half_to_float h % 2 ^ 31 < 255 * 2 ^ 23 ∧
      val149 (half_to_float h % 2 ^ 31) = val24 (h % 2 ^ 15) * 2 ^ 125) ∧
    (h % 2 ^ 15 = 0x7C00 → half_to_float h % 2 ^ 31 = 255 * 2 ^ 23) := by
  obtain ⟨s, eh, mh, hs, he, hm, rfl⟩ :
      ∃ s eh mh, s ≤ 1 ∧ eh ≤ 31 ∧ mh < 2 ^ 10 ∧ h = s * 2 ^ 15 + eh * 2 ^ 10 + mh :=
    ⟨h / 2 ^ 15, h / 2 ^ 10 % 32, h % 2 ^ 10, by omega, by omega, by omega, by omega⟩
  have hlow : (s * 2 ^ 15 + eh * 2 ^ 10 + mh) % 2 ^ 15 = eh * 2 ^ 10 + mh := by omega
  have hsgn : (s * 2 ^ 15 + eh * 2 ^ 10 + mh) / 2 ^ 15 = s := by omega
  have hef : (s * 2 ^ 15 + eh * 2 ^ 10 + mh) / 2 ^ 10 % 32 = eh := by omega
  rw [half_to_float_char s eh mh hs he hm, hlow, hsgn, hef]
  by_cases h31 : eh = 31
  · subst h31
    rw [if_pos rfl]
    exact ⟨by omega, fun hne => by omega, fun hinf => by omega⟩
  · by_cases h0 : eh = 0
    · subst h0
      rw [if_neg (show ¬(0:Nat) = 31 by omega), if_pos rfl]
      by_cases hz : mh = 0
      · subst hz
        rw [if_pos rfl]
        refine ⟨by omega, fun _ => ⟨by omega, ?_⟩, fun hc => by omega⟩
        have hY : (s * 2 ^ 31 + 0) % 2 ^ 31 = 0 := by omega
        have hv0 : val149 0 = 0 := val149_subnormal 0 (by norm_num)
        have hv24 : val24 (0 * 2 ^ 10 + 0) = 0 := by decide
        rw [hY, hv0, hv24]
        ring
      · rw [if_neg hz]
        obtain ⟨s1, s2⟩ := nlog2_spec 512 mh (by omega)
          (lt_of_lt_of_le hm (two_pow_le_two_pow (by norm_num)))
        set lg := nlog2 512 mh with hlgdef
        have hlg : lg ≤ 9 := by
          by_contra hc
          have : 2 ^ 10 ≤ 2 ^ lg := two_pow_le_two_pow (by omega)
          omega
        have hpowsum : (2:Nat) ^ lg * 2 ^ (23 - lg) = 2 ^ 23 := by
          rw [← pow_add]; congr 1; omega
        have hge : 2 ^ 23 ≤ mh * 2 ^ (23 - lg) := by
          have := Nat.mul_le_mul_right (2 ^ (23 - lg)) s1
          omega
        have hup : mh * 2 ^ (23 - lg) < 2 ^ 24 := by
          have h1 : mh * 2 ^ (23 - lg) < 2 ^ (lg + 1) * 2 ^ (23 - lg) :=
            (Nat.mul_lt_mul_right (Nat.two_pow_pos _)).mpr s2
          have h2 : (2:Nat) ^ (lg + 1) * 2 ^ (23 - lg) ≤ 2 ^ 24 := by
            rw [← pow_add]; exact two_pow_le_two_pow (by omega)
          omega
        have hMlt : mh * 2 ^ (23 - lg) - 2 ^ 23 < 2 ^ 23 := by omega
        refine ⟨by omega, fun _ => ⟨by omega, ?_⟩, fun hc => by omega⟩
        have hY : (s * 2 ^ 31 + ((lg + 103) * 2 ^ 23 + (mh * 2 ^ (23 - lg) - 2 ^ 23))) % 2 ^ 31
            = (lg + 103) * 2 ^ 23 + (mh * 2 ^ (23 - lg) - 2 ^ 23) := by omega
        rw [hY, val149_normal (lg + 103) _ (by omega) hMlt]
        have hre : 2 ^ 23 + (mh * 2 ^ (23 - lg) - 2 ^ 23) = mh * 2 ^ (23 - lg) := by omega
        have hv24 : val24 (0 * 2 ^ 10 + mh) = mh := by
          rw [show (0:Nat) * 2 ^ 10 + mh = mh from by ring]
          exact val24_subnormal mh hm
        rw [hre, hv24, mul_assoc, ← pow_add]
        have hexp2 : 23 - lg + (lg + 103 - 1) = 125 := by omega
        rw [hexp2]
    · rw [if_neg h31, if_neg h0]
      refine ⟨by omega, fun _ => ⟨by omega, ?_⟩, fun hc => by omega⟩
      have hY : (s * 2 ^ 31 + ((eh + 112) * 2 ^ 23 + mh * 2 ^ 13)) % 2 ^ 31
          = (eh + 112) * 2 ^ 23 + mh * 2 ^ 13 := by omega
      rw [hY, val149_normal (eh + 112) (mh * 2 ^ 13) (by omega) (by omega),
        val24_normal eh mh (by omega) hm]
      have e1 : (2:Nat) ^ 23 + mh * 2 ^ 13 = (2 ^ 10 + mh) * 2 ^ 13 := by ring
      rw [e1, mul_assoc, ← pow_add, mul_assoc, ← pow_add]
      have hexp2 : 13 + (eh + 112 - 1) = eh - 1 + 125 := by omega
      rw [hexp2]

/-- Witness for C7: at `h = 0x3C00` (1.0) the widened value is exactly the input value. -/
theorem claim_C7_witness :
    (0x3C00 : Nat) < 2 ^ 16 ∧
      val149 (half_to_float 0x3C00 % 2 ^ 31) = val24 (0x3C00 % 2 ^ 15) * 2 ^ 125 :=
  ⟨by decide, ((claim_C7_half_to_float_exact 0x3C00 (by decide)).2.1 (by decide)).2⟩

/-- C5: in `float_to_half_full_rtne` the retained mantissa is incremented
exactly when the discarded bits exceed half a unit in the last retained place,
or equal exactly half with the retained mantissa odd — stated for the
normal-result branch (exponent field 113..142, 13 discarded mantissa bits,
half-ULP `2^12`) and, with the same rule, for the subnormal-result branch
(exponent field 102..112, `126 - e` discarded bits of the hidden-bit mantissa,
half-ULP `2^(125-e)`). -/
theorem claim_C5_rtne_rule (u : Nat) (hu : u < 2 ^ 32) :
    (113 ≤ u / 2 ^ 23 % 256 → u / 2 ^ 23 % 256 ≤ 142 →
      float_to_half_full_rtne u
        = u / 2 ^ 31 * 2 ^ 15 + (u / 2 ^ 23 % 256 - 112) * 2 ^ 10 +
            (if 2 ^ 12 < u % 2 ^ 23 % 2 ^ 13
                ∨ (u % 2 ^ 23 % 2 ^ 13 = 2 ^ 12 ∧ u % 2 ^ 23 / 2 ^ 13 % 2 = 1)
              then u % 2 ^ 23 / 2 ^ 13 + 1 else u % 2 ^ 23 / 2 ^ 13)) ∧
    (102 ≤ u / 2 ^ 23 % 256 → u / 2 ^ 23 % 256 ≤ 112 →
      float_to_half_full_rtne u
        = u / 2 ^ 31 * 2 ^ 15 +
            (if 2 ^ (125 - u / 2 ^ 23 % 256)
                  < (2 ^ 23 + u % 2 ^ 23) % 2 ^ (126 - u / 2 ^ 23 % 256)
                ∨ ((2 ^ 23 + u % 2 ^ 23) % 2 ^ (126 - u / 2 ^ 23 % 256)
                      = 2 ^ (125 - u / 2 ^ 23 % 256)
                    ∧ (2 ^ 23 + u % 2 ^ 23) / 2 ^ (126 - u / 2 ^ 23 % 256) % 2 = 1)
              then (2 ^ 23 + u % 2 ^ 23) / 2 ^ (126 - u / 2 ^ 23 % 256) + 1
              else (2 ^ 23 + u % 2 ^ 23) / 2 ^ (126 - u / 2 ^ 23 % 256))) := by
  obtain ⟨s, e, m, hs, he, hm, rfl⟩ :
      ∃ s e m, s ≤ 1 ∧ e ≤ 255 ∧ m < 2 ^ 23 ∧ u = s * 2 ^ 31 + e * 2 ^ 23 + m :=
    ⟨u / 2 ^ 31, u / 2 ^ 23 % 256, u % 2 ^ 23, by omega, by omega, by omega, by omega⟩
  have hfe : (s * 2 ^ 31 + e * 2 ^ 23 + m) / 2 ^ 23 % 256 = e := by omega
  have hfm : (s * 2 ^ 31 + e * 2 ^ 23 + m) % 2 ^ 23 = m := by omega
  have hfs : (s * 2 ^ 31 + e * 2 ^ 23 + m) / 2 ^ 31 = s := by omega
  rw [hfe, hfm, hfs]
  constructor
  · intro he1 he2
    rw [full_rtne_core_char s e m hs he hm]
    unfold halfRTNEcore rne_div
    have hce : (e * 2 ^ 23 + m) / 2 ^ 23 = e := by omega
    have hcm : (e * 2 ^ 23 + m) % 2 ^ 23 = m := by omega
    simp only [hce, hcm]
    rw [if_neg (show ¬e = 255 by omega), if_neg (show ¬143 ≤ e by omega),
      if_pos (show 113 ≤ e by omega)]
    split_ifs <;> omega
  · intro he1 he2
    rw [full_rtne_core_char s e m hs he hm]
    unfold halfRTNEcore rne_div
    have hce : (e * 2 ^ 23 + m) / 2 ^ 23 = e := by omega
    have hcm : (e * 2 ^ 23 + m) % 2 ^ 23 = m := by omega
    simp only [hce, hcm]
    rw [if_neg (show ¬e = 255 by omega), if_neg (show ¬143 ≤ e by omega),
      if_neg (show ¬113 ≤ e by omega), if_neg (show ¬e = 0 by omega)]
    have hpp : (2:Nat) ^ (126 - e) = 2 ^ (125 - e) * 2 := by
      rw [show 126 - e = 125 - e + 1 from by omega, pow_succ]
    split_ifs <;> omega

/-- Witness for C5: at the tie input `0x3F801000` (1.0 + 2^-11) the normal
branch keeps the even mantissa: the result is `0x3C00`. -/
theorem claim_C5_witness :
    float_to_half_full_rtne 0x3F801000
      = 0x3F801000 / 2 ^ 31 * 2 ^ 15 + (0x3F801000 / 2 ^ 23 % 256 - 112) * 2 ^ 10 +
          (if 2 ^ 12 < 0x3F801000 % 2 ^ 23 % 2 ^ 13
              ∨ (0x3F801000 % 2 ^ 23 % 2 ^ 13 = 2 ^ 12
                  ∧ 0x3F801000 % 2 ^ 23 / 2 ^ 13 % 2 = 1)
            then 0x3F801000 % 2 ^ 23 / 2 ^ 13 + 1 else 0x3F801000 % 2 ^ 23 / 2 ^ 13) :=
  (claim_C5_rtne_rule 0x3F801000 (by decide)).1 (by decide) (by decide)

/-- C6: for every 32-bit input whose exponent field is all-ones, both
`float_to_half_full` and `float_to_half_fast3` output an all-ones exponent
field, mantissa 0 when the input is Infinity and the canonical quiet payload
`0x200` (top mantissa bit set) otherwise, with the sign preserved — so NaNs,
signaling or quiet, become quiet NaNs and never Infinity. -/
theorem claim_C6_infnan (u : Nat) (hu : u < 2 ^ 32) (he : u / 2 ^ 23 % 256 = 255) :
    (float_to_half_full u / 2 ^ 10 % 32 = 31 ∧
     (u % 2 ^ 23 = 0 → float_to_half_full u % 2 ^ 10 = 0) ∧
     (u % 2 ^ 23 ≠ 0 → float_to_half_full u % 2 ^ 10 = 0x200) ∧
     float_to_half_full u / 2 ^ 15 = u / 2 ^ 31) ∧
    (float_to_half_fast3 u / 2 ^ 10 % 32 = 31 ∧
     (u % 2 ^ 23 = 0 → float_to_half_fast3 u % 2 ^ 10 = 0) ∧
     (u % 2 ^ 23 ≠ 0 → float_to_half_fast3 u % 2 ^ 10 = 0x200) ∧
     float_to_half_fast3 u / 2 ^ 15 = u / 2 ^ 31) := by
  obtain ⟨s, m, hs, hm, rfl⟩ :
      ∃ s m, s ≤ 1 ∧ m < 2 ^ 23 ∧ u = s * 2 ^ 31 + 255 * 2 ^ 23 + m :=
    ⟨u / 2 ^ 31, u % 2 ^ 23, by omega, by omega, by omega⟩
  have hfe : (s * 2 ^ 31 + 255 * 2 ^ 23 + m) / 2 ^ 23 % 256 = 255 := by omega
  have hfm : (s * 2 ^ 31 + 255 * 2 ^ 23 + m) % 2 ^ 23 = m := by omega
  have hfs : (s * 2 ^ 31 + 255 * 2 ^ 23 + m) / 2 ^ 31 % 2 = s := by omega
  have hfs1 : (s * 2 ^ 31 + 255 * 2 ^ 23 + m) / 2 ^ 31 = s := by omega
  have hx : (s * 2 ^ 31 + 255 * 2 ^ 23 + m) % 2 ^ 31 = 255 * 2 ^ 23 + m := by omega
  constructor
  · simp only [float_to_half_full, hfe, hfm, hfs, hfs1, if_true, if_false]
    split_ifs <;> first | (exfalso; assumption) | omega
  · simp only [float_to_half_fast3, hfs1, hx, if_true, if_false]
    rw [if_pos (show 255 * 2 ^ 23 ≤ 255 * 2 ^ 23 + m from by omega)]
    split_ifs <;> first | (exfalso; assumption) | omega

/-- Witness for C6 at the positive Infinity pattern `0x7F800000`. -/
theorem claim_C6_witness :
    float_to_half_full 0x7F800000 / 2 ^ 10 % 32 = 31 ∧
      float_to_half_full 0x7F800000 % 2 ^ 10 = 0 :=
  ⟨((claim_C6_infnan 0x7F800000 (by decide) (by decide)).1).1,
    ((claim_C6_infnan 0x7F800000 (by decide) (by decide)).1).2.1 (by decide)⟩

/-- C8 counterexample: the pattern `0x477F8000` named by the claim is not the
binary32 encoding of 65520.0 (it encodes 65408.0): `float_to_half_full_rtne`
maps it to the finite half `0x7BFC`, not to the Infinity pattern `0x7C00`. -/
theorem claim_C8_counterexample :
    float_to_half_full_rtne 0x477F8000 = 0x7BFC ∧ (0x7BFC : Nat) ≠ 0x7C00 := by
  decide

/-- C8 (amended): the binary32 pattern of 65520.0 is `0x477FF000`, and under
round-to-nearest-even it converts to half Infinity `0x7C00`; 65504.0
(`0x477FE000`, the max finite half) converts to `0x7BFF`, which `half_to_float`
maps back to exactly `0x477FE000`. -/
theorem claim_C8_overflow_boundary :
    float_to_half_full_rtne 0x477FF000 = 0x7C00 ∧
    float_to_half_full_rtne 0x477FE000 = 0x7BFF ∧
    half_to_float 0x7BFF = 0x477FE000 := by
  decide

/-- C9: `float_to_half_full` and `float_to_half_fast` agree on every 32-bit
input: the zero/denormal branch that only `float_to_half_full` has is
redundant, because in `float_to_half_fast` a zero exponent field falls into
the underflow path whose shift guard `(14 - newexp) <= 24` fails, producing
the same signed zero. -/
theorem claim_C9_full_eq_fast (u : Nat) (hu : u < 2 ^ 32) :
    float_to_half_full u = float_to_half_fast u := by
  simp only [float_to_half_full, float_to_half_fast]
  by_cases h0 : u / 2 ^ 23 % 256 = 0
  · rw [if_pos h0, if_neg (show ¬u / 2 ^ 23 % 256 = 255 by omega),
      if_neg (show ¬(31 : Int) ≤ ((u / 2 ^ 23 % 256 : Nat) : Int) - 127 + 15 by omega),
      if_pos (show ((u / 2 ^ 23 % 256 : Nat) : Int) - 127 + 15 ≤ 0 by omega),
      if_neg (show ¬(14 : Int) - (((u / 2 ^ 23 % 256 : Nat) : Int) - 127 + 15) ≤ 24 by omega)]
  · rw [if_neg h0]

/-- Witness for C9 at the input `0x00000001` (smallest positive subnormal float). -/
theorem claim_C9_witness :
    (0x00000001 : Nat) < 2 ^ 32 ∧ float_to_half_full 0x00000001 = float_to_half_fast 0x00000001 :=
  ⟨by decide, claim_C9_full_eq_fast 0x00000001 (by decide)⟩

/-- C10: `approx_float_to_half` maps the positive Infinity pattern
`0x7F800000` to `0xFC00`, the half negative-Infinity pattern: the store in its
Inf/NaN branch is dead (overwritten by the unconditional `o.u = f.u >> 13`),
so for every input taking that branch the output is the low 16 bits of the
sign-stripped input shifted right by 13, with the original sign ORed into bit 15. -/
theorem claim_C10_approx_inf :
    approx_float_to_half 0x7F800000 = 0xFC00 ∧
    ∀ u : Nat, u < 2 ^ 32 →
      ¬(u % 2 ^ 31 ≤ 255 * 2 ^ 23 ∧ val149 (u % 2 ^ 31) < 2139095040 * 2 ^ 149) →
      approx_float_to_half u
        = (if u % 2 ^ 31 / 2 ^ 13 % 2 ^ 16 / 2 ^ 15 % 2 = 0
           then u % 2 ^ 31 / 2 ^ 13 % 2 ^ 16 + u / 2 ^ 31 * 2 ^ 31 / 2 ^ 16
           else u % 2 ^ 31 / 2 ^ 13 % 2 ^ 16) := by
  constructor
  · decide
  · intro u hu hbr
    simp only [approx_float_to_half, if_pos hbr]

/-- Witness for C10's general Inf/NaN-branch formula at the negative NaN
pattern `0xFFC00001`. -/
theorem claim_C10_witness :
    approx_float_to_half 0xFFC00001
      = (if (0xFFC00001 : Nat) % 2 ^ 31 / 2 ^ 13 % 2 ^ 16 / 2 ^ 15 % 2 = 0
         then (0xFFC00001 : Nat) % 2 ^ 31 / 2 ^ 13 % 2 ^ 16
             + (0xFFC00001 : Nat) / 2 ^ 31 * 2 ^ 31 / 2 ^ 16
         else (0xFFC00001 : Nat) % 2 ^ 31 / 2 ^ 13 % 2 ^ 16) :=
  claim_C10_approx_inf.2 0xFFC00001 (by decide) (by decide)

/-- C2 (code bug): with no hardware instruction, `float_to_half` routes to
`float_to_half_reference`, which rounds ties away from zero — not to even as
the dispatcher contract requires — and therefore diverges from the
round-to-nearest-even hardware behaviour (`fcvt_f32_f16`, modelled from the
spec) at the tie input `0x3F801000` (1.00048828125f): software `0x3C01`,
hardware `0x3C00`; the repository's own ties-to-even reference
`float_to_half_full_rtne` agrees with the hardware. -/
theorem claim_C2_dispatcher_divergence :
    float_to_half 0x3F801000 = float_to_half_reference 0x3F801000 ∧
    float_to_half 0x3F801000 = 0x3C01 ∧
    fcvt_f32_f16 0x3F801000 = 0x3C00 ∧
    float_to_half_full_rtne 0x3F801000 = 0x3C00 :=
  ⟨rfl, by decide, by decide, by decide⟩

lemma val149_lt_threshold (x : Nat) (hx : x < 0x4EFF0000) :
    val149 x < 2139095040 * 2 ^ 149 := by
  unfold val149
  have hmx : x % 2 ^ 23 < 2 ^ 23 := Nat.mod_lt _ (by norm_num)
  split_ifs with h
  · omega
  · have he : x / 2 ^ 23 ≤ 157 := by omega
    by_cases h157 : x / 2 ^ 23 = 157
    · have hm : x % 2 ^ 23 < 0x7F0000 := by omega
      rw [h157]
      calc (2 ^ 23 + x % 2 ^ 23) * 2 ^ (157 - 1)
          < (2 ^ 23 + 0x7F0000) * 2 ^ (157 - 1) :=
            (Nat.mul_lt_mul_right (Nat.two_pow_pos _)).mpr (by omega)
        _ = 2139095040 * 2 ^ 149 := by decide
    · have h1 : 2 ^ 23 + x % 2 ^ 23 < 2 ^ 24 := by omega
      have h2 : (2:Nat) ^ (x / 2 ^ 23 - 1) ≤ 2 ^ 155 := two_pow_le_two_pow (by omega)
      calc (2 ^ 23 + x % 2 ^ 23) * 2 ^ (x / 2 ^ 23 - 1)
          < 2 ^ 24 * 2 ^ (x / 2 ^ 23 - 1) :=
            (Nat.mul_lt_mul_right (Nat.two_pow_pos _)).mpr h1
        _ ≤ 2 ^ 24 * 2 ^ 155 := Nat.mul_le_mul_left _ h2
        _ < 2139095040 * 2 ^ 149 := by decide

lemma full_sign_eq (u : Nat) (hu : u < 2 ^ 32) :
    float_to_half_full u / 2 ^ 15 = u / 2 ^ 31 := by
  simp only [float_to_half_full]
  split_ifs <;> omega

lemma full_rtne_sign_eq (u : Nat) (hu : u < 2 ^ 32) :
    float_to_half_full_rtne u / 2 ^ 15 = u / 2 ^ 31 := by
  simp only [float_to_half_full_rtne]
  split_ifs <;> omega

lemma fast_sign_eq (u : Nat) (hu : u < 2 ^ 32) :
    float_to_half_fast u / 2 ^ 15 = u / 2 ^ 31 := by
  simp only [float_to_half_fast]
  split_ifs <;> omega

lemma fast2_sign_eq (u : Nat) (hu : u < 2 ^ 32) :
    float_to_half_fast2 u / 2 ^ 15 = u / 2 ^ 31 := by
  simp only [float_to_half_fast2]
  split_ifs <;> omega

lemma fast3_sign_eq (u : Nat) (hu : u < 2 ^ 32) :
    float_to_half_fast3 u / 2 ^ 15 = u / 2 ^ 31 := by
  simp only [float_to_half_fast3]
  by_cases hbr : 255 * 2 ^ 23 ≤ u % 2 ^ 31
  · rw [if_pos hbr]
    split_ifs <;> omega
  · rw [if_neg hbr]
    have hb : (if 31 * 2 ^ 23 < (fp32mul_pow2_neg112 (u % 2 ^ 31 - u % 2 ^ 31 % 2 ^ 12)
            + 0x1000) % 2 ^ 32
          then 31 * 2 ^ 23
          else (fp32mul_pow2_neg112 (u % 2 ^ 31 - u % 2 ^ 31 % 2 ^ 12) + 0x1000) % 2 ^ 32)
        ≤ 31 * 2 ^ 23 := by
      split_ifs <;> omega
    have ho : (if 31 * 2 ^ 23 < (fp32mul_pow2_neg112 (u % 2 ^ 31 - u % 2 ^ 31 % 2 ^ 12)
            + 0x1000) % 2 ^ 32
          then 31 * 2 ^ 23
          else (fp32mul_pow2_neg112 (u % 2 ^ 31 - u % 2 ^ 31 % 2 ^ 12) + 0x1000) % 2 ^ 32)
          / 2 ^ 13 % 2 ^ 16 < 2 ^ 15 := by omega
    rw [Nat.div_eq_of_lt ho, if_pos (show (0:Nat) % 2 = 0 from rfl)]
    omega

lemma fast3_rtne_sign_eq (u : Nat) (hu : u < 2 ^ 32) :
    float_to_half_fast3_rtne u / 2 ^ 15 = u / 2 ^ 31 := by
  obtain ⟨s, e, m, hs, he, hm, rfl⟩ :
      ∃ s e m, s ≤ 1 ∧ e ≤ 255 ∧ m < 2 ^ 23 ∧ u = s * 2 ^ 31 + e * 2 ^ 23 + m :=
    ⟨u / 2 ^ 31, u / 2 ^ 23 % 256, u % 2 ^ 23, by omega, by omega, by omega, by omega⟩
  rw [fast3_rtne_core_char s e m hs he hm]
  have := halfRTNEcore_lt (e * 2 ^ 23 + m)
  omega

lemma approx_sign_eq (u : Nat) (hu : u < 2 ^ 32) (hx : u % 2 ^ 31 < 0x4EFF0000) :
    approx_float_to_half u / 2 ^ 15 = u / 2 ^ 31 := by
  have hcond : u % 2 ^ 31 ≤ 255 * 2 ^ 23 ∧ val149 (u % 2 ^ 31) < 2139095040 * 2 ^ 149 :=
    ⟨by omega, val149_lt_threshold _ hx⟩
  simp only [approx_float_to_half, if_neg (not_not_intro hcond)]
  set c := if val149 (143 * 2 ^ 23) < val149 (u % 2 ^ 31) then 143 * 2 ^ 23 else u % 2 ^ 31
    with hcdef
  have hth : val149 (143 * 2 ^ 23) = 2 ^ 165 := by decide
  have hX : val149 c ≤ 2 ^ 165 := by
    rw [hcdef]
    split_ifs with h1
    · exact le_of_eq hth
    · omega
  have hmul : fp32mul_pow2_neg112 c ≤ 31 * 2 ^ 23 := by
    unfold fp32mul_pow2_neg112
    exact roundFP32pos_le31 _ hX
  have ho : fp32mul_pow2_neg112 c / 2 ^ 13 % 2 ^ 16 < 2 ^ 15 := by omega
  rw [Nat.div_eq_of_lt ho, if_pos (show (0:Nat) % 2 = 0 from rfl)]
  omega

lemma half_to_float_sign_eq (h : Nat) (hh : h < 2 ^ 16) :
    half_to_float h / 2 ^ 31 = h / 2 ^ 15 := by
  obtain ⟨s, eh, mh, hs, he, hm, rfl⟩ :
      ∃ s eh mh, s ≤ 1 ∧ eh ≤ 31 ∧ mh < 2 ^ 10 ∧ h = s * 2 ^ 15 + eh * 2 ^ 10 + mh :=
    ⟨h / 2 ^ 15, h / 2 ^ 10 % 32, h % 2 ^ 10, by omega, by omega, by omega, by omega⟩
  rw [half_to_float_char s eh mh hs he hm]
  have hY : (if eh = 31 then 255 * 2 ^ 23 + mh * 2 ^ 13
      else if eh = 0 then
        (if mh = 0 then 0
         else (nlog2 512 mh + 103) * 2 ^ 23 + (mh * 2 ^ (23 - nlog2 512 mh) - 2 ^ 23))
      else (eh + 112) * 2 ^ 23 + mh * 2 ^ 13) < 2 ^ 31 := by
    have hlg9 : mh ≠ 0 → nlog2 512 mh ≤ 9 := by
      intro hz
      obtain ⟨s1, s2⟩ := nlog2_spec 512 mh (by omega)
        (lt_of_lt_of_le hm (two_pow_le_two_pow (by norm_num)))
      by_contra hc
      have : 2 ^ 10 ≤ 2 ^ nlog2 512 mh := two_pow_le_two_pow (by omega)
      omega
    split_ifs with h1 h2 h3
    · omega
    · omega
    · have hlg := hlg9 h3
      have hup : mh * 2 ^ (23 - nlog2 512 mh) < 2 ^ 24 := by
        obtain ⟨s1, s2⟩ := nlog2_spec 512 mh (by omega)
          (lt_of_lt_of_le hm (two_pow_le_two_pow (by norm_num)))
        have h1 : mh * 2 ^ (23 - nlog2 512 mh)
            < 2 ^ (nlog2 512 mh + 1) * 2 ^ (23 - nlog2 512 mh) :=
          (Nat.mul_lt_mul_right (Nat.two_pow_pos _)).mpr s2
        have h2 : (2:Nat) ^ (nlog2 512 mh + 1) * 2 ^ (23 - nlog2 512 mh) ≤ 2 ^ 24 := by
          rw [← pow_add]; exact two_pow_le_two_pow (by omega)
        omega
      omega
    · omega
  omega

/-- C4 counterexample: `approx_float_to_half` does not preserve the sign on
the positive Infinity pattern: the input `0x7F800000` has sign bit 0 but the
output `0xFC00` has sign bit 1. -/
theorem claim_C4_counterexample :
    approx_float_to_half 0x7F800000 = 0xFC00 ∧
      (0xFC00 : Nat) / 2 ^ 15 ≠ (0x7F800000 : Nat) / 2 ^ 31 := by
  decide

/-- C4 (amended): the sign bit of the output equals the sign bit of the input
for every input in `float_to_half_full`, `float_to_half_full_rtne`,
`float_to_half_fast`, `float_to_half_fast2`, `float_to_half_fast3`,
`float_to_half_fast3_rtne` and `half_to_float`; for `approx_float_to_half` it
holds for every input that does not take the Inf/NaN branch, i.e. whose
sign-stripped pattern is below `0x4EFF0000` (the pattern of the float value
2139095040.0 compared against): inputs in that branch, such as `+Inf`, can
flip the sign bit. -/
theorem claim_C4_sign_preservation (u h16 : Nat) (hu : u < 2 ^ 32) (hh : h16 < 2 ^ 16) :
    float_to_half_full u / 2 ^ 15 = u / 2 ^ 31 ∧
    float_to_half_full_rtne u / 2 ^ 15 = u / 2 ^ 31 ∧
    float_to_half_fast u / 2 ^ 15 = u / 2 ^ 31 ∧
    float_to_half_fast2 u / 2 ^ 15 = u / 2 ^ 31 ∧
    float_to_half_fast3 u / 2 ^ 15 = u / 2 ^ 31 ∧
    float_to_half_fast3_rtne u / 2 ^ 15 = u / 2 ^ 31 ∧
    (u % 2 ^ 31 < 0x4EFF0000 → approx_float_to_half u / 2 ^ 15 = u / 2 ^ 31) ∧
    half_to_float h16 / 2 ^ 31 = h16 / 2 ^ 15 :=
  ⟨full_sign_eq u hu, full_rtne_sign_eq u hu, fast_sign_eq u hu, fast2_sign_eq u hu,
    fast3_sign_eq u hu, fast3_rtne_sign_eq u hu, fun hx => approx_sign_eq u hu hx,
    half_to_float_sign_eq h16 hh⟩

/-- Witness for C4 at `u = 0xBF800000` (-1.0f) and `h16 = 0xBC00` (-1.0h),
with the approx hypothesis discharged. -/
theorem claim_C4_witness :
    approx_float_to_half 0xBF800000 / 2 ^ 15 = (0xBF800000 : Nat) / 2 ^ 31 ∧
      half_to_float 0xBC00 / 2 ^ 31 = (0xBC00 : Nat) / 2 ^ 15 :=
  ⟨(claim_C4_sign_preservation 0xBF800000 0xBC00 (by decide) (by decide)).2.2.2.2.2.2.1
      (by decide),
    (claim_C4_sign_preservation 0xBF800000 0xBC00 (by decide) (by decide)).2.2.2.2.2.2.2⟩
